import Mathlib

/-!
Verification of the chunked, resumable log watcher of the `together` backend.

The definitions below are a shallow embedding of the Rust sources:
  * `src/backend/bin/attestation_watcher.rs` — the watcher control loop
    (`watch_auctions`), batch processing (`process_block_range`), the log
    decoders and the auction sink (`process_auction_settled`);
  * `src/backend/src/db/attestations.rs` — the attestation sink
    (`insert_attestation`, `update_address_count`), the point query
    (`check_together`) and the cursor store (`update_watcher_state`);
  * `src/backend/src/constants.rs` — the tuning constants.

Machine integers are modelled as `Nat`/`Int` (the source never relies on
wrap-around except where noted), byte strings as `List Nat` of values < 256,
database tables as lists of row structures, and fallible database calls as
`Except`-valued functions.
-/

namespace Together

/-! ## Constants (src/backend/src/constants.rs) -/

def INITIAL_CHUNK_SIZE : Nat := 500
def MIN_CHUNK_SIZE : Nat := 125
def MAX_CHUNK_SIZE : Nat := 4000
def REFRESH_LATEST_BLOCK_EVERY_N_ITERS : Nat := 10

/-! ## Range planner loop (`watch_auctions`, attestation_watcher.rs lines 81–165)

One iteration of the `while from_block <= latest_block` loop is modelled by
`loopIter`.  Everything the iteration observes from the outside world is an
`IterEnv`: the result of the `provider.get_block_number()` call (if the
iteration makes one; `none` models an RPC error, which the source handles by
falling back to `latest_block`), and the outcome of
`process_block_range` (success or failure).  The iteration reports the state
for the next iteration, the `save_watcher_state` call it made (if any), the
sleep it performed (if any), the block range it processed (if any), and
whether it hit the `break`. -/

structure LoopState where
  from_block : Nat
  chunk_size : Nat
  iter_count : Nat
  failures_in_row : Nat
  /-- The head fetched once before the loop; the source never reassigns it. -/
  latest_block : Nat
deriving DecidableEq, Repr

inductive Outcome where
  | ok
  | err
deriving DecidableEq, Repr

structure IterEnv where
  /-- Result of `provider.get_block_number()` when the iteration calls it;
  `none` models the `Err` arm, which falls back to `latest_block`. -/
  refresh : Option Nat
  outcome : Outcome
deriving DecidableEq, Repr

structure Persisted where
  last_processed_block : Nat
  chunk_size : Nat
deriving DecidableEq, Repr

structure IterOut where
  st : LoopState
  /-- Argument of the `save_watcher_state` call, when one was made. -/
  saved : Option Persisted
  /-- Seconds slept by `tokio::time::sleep`, when a sleep happened. -/
  sleptSecs : Option Nat
  /-- The `[from_block, to_block]` range handed to `process_block_range`. -/
  issued : Option (Nat × Nat)
  broke : Bool
deriving DecidableEq, Repr

/-- The head used by one iteration: refreshed only when
`iter_count % REFRESH_LATEST_BLOCK_EVERY_N_ITERS == 0`, with fallback to the
initial `latest_block` on RPC error (lines 102–115). -/
def currentLatest (st : LoopState) (e : IterEnv) : Nat :=
  if st.iter_count % REFRESH_LATEST_BLOCK_EVERY_N_ITERS = 0 then
    e.refresh.getD st.latest_block
  else
    st.latest_block

/-- One iteration of the planner loop (lines 100–156). -/
def loopIter (st : LoopState) (e : IterEnv) : IterOut :=
  if st.latest_block < st.from_block then
    -- while-condition `from_block <= latest_block` fails
    { st := st, saved := none, sleptSecs := none, issued := none, broke := true }
  else
    let cl := currentLatest st e
    if cl < st.from_block then
      -- `if from_block > current_latest { break; }`
      { st := st, saved := none, sleptSecs := none, issued := none, broke := true }
    else
      let to_block := min (st.from_block + st.chunk_size - 1) cl
      match e.outcome with
      | .ok =>
          -- success: reset failures, grow chunk, advance, save (lines 125–140)
          let cs :=
            if st.chunk_size < MAX_CHUNK_SIZE then
              min (st.chunk_size * 2) MAX_CHUNK_SIZE
            else st.chunk_size
          let fb := to_block + 1
          { st := { st with
                      from_block := fb
                      chunk_size := cs
                      failures_in_row := 0
                      iter_count := st.iter_count + 1 }
            saved := some ⟨fb - 1, cs⟩
            sleptSecs := none
            issued := some (st.from_block, to_block)
            broke := false }
      | .err =>
          -- failure: bump failure count, then either sleep (at MIN) or halve
          -- the chunk; nothing is persisted (lines 141–152)
          let f := st.failures_in_row + 1
          if st.chunk_size ≤ MIN_CHUNK_SIZE then
            { st := { st with
                        failures_in_row := f
                        iter_count := st.iter_count + 1 }
              saved := none
              sleptSecs := some (min (2 * f) 10)
              issued := some (st.from_block, to_block)
              broke := false }
          else
            { st := { st with
                        chunk_size := max (st.chunk_size / 2) MIN_CHUNK_SIZE
                        failures_in_row := f
                        iter_count := st.iter_count + 1 }
              saved := none
              sleptSecs := none
              issued := some (st.from_block, to_block)
              broke := false }

/-- Run the loop against a finite schedule of environments, collecting every
`save_watcher_state` call in order.  The run stops early at a `break`. -/
def loopRun : LoopState → List IterEnv → LoopState × List Persisted
  | st, [] => (st, [])
  | st, e :: es =>
      let o := loopIter st e
      if o.broke then (st, [])
      else
        let r := loopRun o.st es
        (r.1, o.saved.toList ++ r.2)

/-- `savesChain base saves`: every persisted watermark is at least the
previous one, starting from `base`. -/
def savesChain : Nat → List Persisted → Prop
  | _, [] => True
  | prev, s :: ss => prev ≤ s.last_processed_block ∧ savesChain s.last_processed_block ss

end Together
namespace Together

/-! ## Lemmas about single iterations -/

/-- Every iteration either breaks (state untouched, nothing saved), fails
(nothing saved, `from_block` untouched), or succeeds (saving a watermark `p`
with `from_block - 1 ≤ p` and resuming from `p + 1`). -/
lemma loopIter_cases (st : LoopState) (e : IterEnv) :
    ((loopIter st e).broke = true ∧ (loopIter st e).st = st ∧ (loopIter st e).saved = none)
    ∨ ((loopIter st e).broke = false ∧ (loopIter st e).saved = none ∧
        (loopIter st e).st.from_block = st.from_block)
    ∨ ((loopIter st e).broke = false ∧ ∃ p, (loopIter st e).saved = some p ∧
        (loopIter st e).st.from_block = p.last_processed_block + 1 ∧
        st.from_block - 1 ≤ p.last_processed_block) := by
  obtain ⟨r, o⟩ := e
  unfold loopIter
  by_cases h1 : st.latest_block < st.from_block
  · simp [h1]
  · simp only [if_neg h1]
    by_cases h2 : currentLatest st ⟨r, o⟩ < st.from_block
    · simp [h2]
    · simp only [if_neg h2]
      cases o with
      | ok =>
          right; right
          refine ⟨rfl, ⟨_, rfl, rfl, ?_⟩⟩
          simp only [not_lt] at h2
          dsimp only
          omega
      | err =>
          right; left
          by_cases h3 : st.chunk_size ≤ MIN_CHUNK_SIZE <;> simp [h3]

/-- Collected watermarks never regress, starting from the watermark the run
resumed at. -/
lemma savesChain_loopRun (envs : List IterEnv) (st : LoopState) :
    savesChain (st.from_block - 1) (loopRun st envs).2 := by
  induction envs generalizing st with
  | nil => simp [loopRun, savesChain]
  | cons e es ih =>
      show savesChain _ (loopRun st (e :: es)).2
      rcases loopIter_cases st e with ⟨hb, _, _⟩ | ⟨hb, hs, hf⟩ | ⟨hb, p, hs, hf, hle⟩
      · simp [loopRun, hb, savesChain]
      · have h := ih (loopIter st e).st
        rw [hf] at h
        simpa [loopRun, hb, hs] using h
      · have h := ih (loopIter st e).st
        rw [hf] at h
        simp only [loopRun, hb, if_false, Bool.false_eq_true, hs, Option.toList_some]
        exact ⟨hle, by simpa using h⟩

end Together
namespace Together

/-- C4: Range Planner success path: for every successfully processed range
`[from_block, to_block]`, `chunk_size` becomes `min (chunk_size * 2)
MAX_CHUNK_SIZE`, the cursor's `last_processed_block` becomes exactly
`to_block`, both values are persisted by the `save_watcher_state` call, and
across a run the persisted `last_processed_block` never decreases. -/
theorem rangePlannerSuccessPath :
    (∀ (st : LoopState) (e : IterEnv),
      e.outcome = Outcome.ok →
      st.from_block ≤ st.latest_block →
      st.from_block ≤ currentLatest st e →
      1 ≤ st.chunk_size → st.chunk_size ≤ MAX_CHUNK_SIZE →
      (loopIter st e).issued
          = some (st.from_block, min (st.from_block + st.chunk_size - 1) (currentLatest st e)) ∧
      (loopIter st e).st.chunk_size = min (st.chunk_size * 2) MAX_CHUNK_SIZE ∧
      (loopIter st e).st.from_block
          = min (st.from_block + st.chunk_size - 1) (currentLatest st e) + 1 ∧
      (loopIter st e).saved
          = some ⟨min (st.from_block + st.chunk_size - 1) (currentLatest st e),
                  min (st.chunk_size * 2) MAX_CHUNK_SIZE⟩ ∧
      st.from_block ≤ min (st.from_block + st.chunk_size - 1) (currentLatest st e)) ∧
    (∀ (st : LoopState) (envs : List IterEnv),
      savesChain (st.from_block - 1) (loopRun st envs).2) := by
  constructor
  · intro st e hout h1 h2 hc1 hcmax
    obtain ⟨r, o⟩ := e
    subst hout
    unfold loopIter
    rw [if_neg (not_lt.mpr h1), if_neg (not_lt.mpr h2)]
    dsimp only
    refine ⟨rfl, ?_, rfl, ?_, ?_⟩
    · by_cases hlt : st.chunk_size < MAX_CHUNK_SIZE
      · simp [hlt]
      · simp only [if_neg hlt]
        omega
    · by_cases hlt : st.chunk_size < MAX_CHUNK_SIZE
      · simp [hlt]
      · simp only [if_neg hlt, Option.some.injEq, Persisted.mk.injEq]
        exact ⟨by omega, by omega⟩
    · omega
  · intro st envs
    exact savesChain_loopRun envs st

/-- Witness for C4 at a concrete input: the range `[101, 300]` succeeds with
chunk size 500 and head 300; chunk grows to 1000, the cursor is saved at 300,
and the loop resumes from 301. -/
theorem rangePlannerSuccessPath_witness :
    (loopIter ⟨101, 500, 0, 0, 300⟩ ⟨some 300, Outcome.ok⟩).saved = some ⟨300, 1000⟩ := by
  have h := (rangePlannerSuccessPath.1 ⟨101, 500, 0, 0, 300⟩ ⟨some 300, Outcome.ok⟩
    rfl (by decide) (by decide) (by decide) (by decide)).2.2.2.1
  rw [h]
  decide

/-- C2 counterexample: a failed attempt with `chunk_size = 1000` (above
`MIN_CHUNK_SIZE = 125`).  The claim requires the halved chunk size to be
persisted and the planner to sleep; the code does neither (`save_watcher_state`
is only called on the success path, and the failure branch sleeps only when
`chunk_size <= MIN_CHUNK_SIZE`). -/
theorem rangePlannerFailureClaim_cex :
    (loopIter ⟨101, 1000, 1, 0, 200⟩ ⟨none, Outcome.err⟩).issued = some (101, 200) ∧
    (loopIter ⟨101, 1000, 1, 0, 200⟩ ⟨none, Outcome.err⟩).st.chunk_size = 500 ∧
    (loopIter ⟨101, 1000, 1, 0, 200⟩ ⟨none, Outcome.err⟩).saved = none ∧
    (loopIter ⟨101, 1000, 1, 0, 200⟩ ⟨none, Outcome.err⟩).sleptSecs = none := by
  decide

/-- C2 (amended): for every failed range attempt, `from_block` (hence the
cursor) is unchanged and nothing at all is persisted; `failures_in_row`
increments; when `chunk_size > MIN_CHUNK_SIZE` the chunk halves (clamped to
`MIN_CHUNK_SIZE`) and there is no sleep, and when `chunk_size ≤
MIN_CHUNK_SIZE` the chunk is unchanged and the planner sleeps
`min (2 * failures_in_row) 10` seconds; the chunk never drops below
`MIN_CHUNK_SIZE` when it started at or above it. -/
theorem rangePlannerFailurePath (st : LoopState) (e : IterEnv)
    (hout : e.outcome = Outcome.err)
    (h1 : st.from_block ≤ st.latest_block)
    (h2 : st.from_block ≤ currentLatest st e) :
    (loopIter st e).st.from_block = st.from_block ∧
    (loopIter st e).saved = none ∧
    (loopIter st e).st.failures_in_row = st.failures_in_row + 1 ∧
    (loopIter st e).st.chunk_size =
      (if st.chunk_size ≤ MIN_CHUNK_SIZE then st.chunk_size
       else max (st.chunk_size / 2) MIN_CHUNK_SIZE) ∧
    (loopIter st e).sleptSecs =
      (if st.chunk_size ≤ MIN_CHUNK_SIZE then some (min (2 * (st.failures_in_row + 1)) 10)
       else none) ∧
    (loopIter st e).issued
        = some (st.from_block, min (st.from_block + st.chunk_size - 1) (currentLatest st e)) ∧
    (MIN_CHUNK_SIZE ≤ st.chunk_size → MIN_CHUNK_SIZE ≤ (loopIter st e).st.chunk_size) := by
  obtain ⟨r, o⟩ := e
  subst hout
  unfold loopIter
  rw [if_neg (not_lt.mpr h1), if_neg (not_lt.mpr h2)]
  by_cases h3 : st.chunk_size ≤ MIN_CHUNK_SIZE <;> simp [h3]

/-- Witness for C2 (amended) at a concrete input: failure with the chunk
already at `MIN_CHUNK_SIZE` and two prior consecutive failures. -/
theorem rangePlannerFailurePath_witness :
    (loopIter ⟨101, 125, 1, 2, 200⟩ ⟨none, Outcome.err⟩).st.from_block = 101 ∧
    (loopIter ⟨101, 125, 1, 2, 200⟩ ⟨none, Outcome.err⟩).saved = none ∧
    (loopIter ⟨101, 125, 1, 2, 200⟩ ⟨none, Outcome.err⟩).sleptSecs = some 6 := by
  have h := rangePlannerFailurePath ⟨101, 125, 1, 2, 200⟩ ⟨none, Outcome.err⟩
    rfl (by decide) (by decide)
  exact ⟨h.1, h.2.1, by rw [h.2.2.2.2.1]; decide⟩

/-- C6 counterexample: at iteration 1 the watcher is within one chunk of the
known head (`101 + 500 > 200`), a fresh head (300) is available, yet the head
is not refreshed — `currentLatest` stays at the stale initial head 200 and
the issued range is capped there.  The refresh happens only when
`iter_count % REFRESH_LATEST_BLOCK_EVERY_N_ITERS = 0`, never because the
watcher is nearly caught up. -/
theorem chainHeadRefresh_cex :
    (101 : Nat) + 500 > 200 ∧
    (1 : Nat) % REFRESH_LATEST_BLOCK_EVERY_N_ITERS ≠ 0 ∧
    currentLatest ⟨101, 500, 1, 0, 200⟩ ⟨some 300, Outcome.ok⟩ = 200 ∧
    (loopIter ⟨101, 500, 1, 0, 200⟩ ⟨some 300, Outcome.ok⟩).issued = some (101, 200) := by
  decide

/-- C6 (amended): the head is refreshed exactly when `iter_count %
REFRESH_LATEST_BLOCK_EVERY_N_ITERS = 0` (an iteration with any other count
behaves as if no fresh head existed); on a refreshing iteration the head used
is the RPC result, falling back to the initial head on RPC error; and an
iteration issues no range exactly when `from_block` exceeds the initial head
or the head in use. -/
theorem chainHeadRefreshCadence (st : LoopState) (e : IterEnv) :
    (st.iter_count % REFRESH_LATEST_BLOCK_EVERY_N_ITERS ≠ 0 →
        loopIter st e = loopIter st ⟨none, e.outcome⟩) ∧
    (st.iter_count % REFRESH_LATEST_BLOCK_EVERY_N_ITERS = 0 →
        currentLatest st e = e.refresh.getD st.latest_block) ∧
    currentLatest st ⟨none, e.outcome⟩ = st.latest_block ∧
    ((loopIter st e).issued = none ↔
        st.latest_block < st.from_block ∨ currentLatest st e < st.from_block) := by
  obtain ⟨r, o⟩ := e
  refine ⟨?_, ?_, ?_, ?_⟩
  · intro h
    unfold loopIter currentLatest
    simp [h]
  · intro h
    unfold currentLatest
    simp [h]
  · unfold currentLatest
    by_cases h : st.iter_count % REFRESH_LATEST_BLOCK_EVERY_N_ITERS = 0 <;> simp [h]
  · unfold loopIter
    by_cases h1 : st.latest_block < st.from_block
    · simp [h1]
    · simp only [if_neg h1]
      by_cases h2 : currentLatest st ⟨r, o⟩ < st.from_block
      · simp [h2]
      · simp only [if_neg h2]
        cases o with
        | ok => simp [h1, h2]
        | err =>
            by_cases h3 : st.chunk_size ≤ MIN_CHUNK_SIZE <;> simp [h3, h1, h2]

/-- Witness for C6 (amended) at a concrete input: iteration 3 ignores the
fresh head entirely. -/
theorem chainHeadRefreshCadence_witness :
    loopIter ⟨101, 500, 3, 0, 200⟩ ⟨some 300, Outcome.ok⟩
      = loopIter ⟨101, 500, 3, 0, 200⟩ ⟨none, Outcome.ok⟩ :=
  (chainHeadRefreshCadence ⟨101, 500, 3, 0, 200⟩ ⟨some 300, Outcome.ok⟩).1 (by decide)

end Together
namespace Together

/-! ## Raw logs and the per-tick dedup set (`process_block_range`)

`RawLog` models `alloy::rpc::types::Log` as the watcher uses it: optional
transaction hash and log index, the reorg flag, and the topic words.  A
32-byte word is a `List Nat` of length 32 with entries < 256. -/

structure RawLog where
  transaction_hash : Option (List Nat)
  log_index : Option Nat
  block_number : Option Nat
  removed : Bool
  topics : List (List Nat)
  data : List Nat
deriving DecidableEq, Repr

/-- `B256::default()`: the all-zero 32-byte hash. -/
def zeroB256 : List Nat := List.replicate 32 0

/-- The per-tick dedup key (lines 199 and 274):
`(event.transaction_hash.unwrap_or_default(), event.log_index.unwrap_or_default())`. -/
def dedupKey (l : RawLog) : List Nat × Nat :=
  (l.transaction_hash.getD zeroB256, l.log_index.getD 0)

/-- The dedup front of the per-log loop (lines 198–204): enumerate the batch
starting at index `idx` with the running `seen_events` set, and return the
final set together with the indices of the logs that got PAST the dedup check
(only those can go on to be decoded and persisted; a log whose key is already
in the set is skipped with `continue` before any decoding). -/
def processIndices : List RawLog → List (List Nat × Nat) → Nat →
    List (List Nat × Nat) × List Nat
  | [], seen, _ => (seen, [])
  | l :: ls, seen, idx =>
      let k := dedupKey l
      if k ∈ seen then
        processIndices ls seen (idx + 1)
      else
        let r := processIndices ls (k :: seen) (idx + 1)
        (r.1, idx :: r.2)

lemma processIndices_lb : ∀ (ls : List RawLog) (seen : List (List Nat × Nat))
    (idx n : Nat), n ∈ (processIndices ls seen idx).2 → idx ≤ n := by
  intro ls
  induction ls with
  | nil => intro seen idx n h; simp [processIndices] at h
  | cons l ls ih =>
      intro seen idx n h
      unfold processIndices at h
      by_cases hm : dedupKey l ∈ seen
      · rw [if_pos hm] at h
        have := ih seen (idx + 1) n h
        omega
      · rw [if_neg hm] at h
        rcases List.mem_cons.mp h with h0 | h1
        · omega
        · have := ih (dedupKey l :: seen) (idx + 1) n h1
          omega

/-- A log whose dedup key is already in the seen set never passes the check. -/
lemma processIndices_seen_skip : ∀ (ls : List RawLog) (seen : List (List Nat × Nat))
    (idx j : Nat) (hj : j < ls.length),
    dedupKey (ls.get ⟨j, hj⟩) ∈ seen → idx + j ∉ (processIndices ls seen idx).2 := by
  intro ls
  induction ls with
  | nil => intro seen idx j hj; simp at hj
  | cons l ls ih =>
      intro seen idx j hj hmem
      unfold processIndices
      by_cases hm : dedupKey l ∈ seen
      · rw [if_pos hm]
        cases j with
        | zero =>
            intro hc
            have := processIndices_lb ls seen (idx + 1) idx hc
            omega
        | succ j =>
            have := ih seen (idx + 1) j (by simpa using hj) (by simpa using hmem)
            simpa [Nat.add_assoc, Nat.add_comm 1 j] using this
      · rw [if_neg hm]
        cases j with
        | zero => simp at hmem; exact absurd hmem hm
        | succ j =>
            have hmem' : dedupKey (ls.get ⟨j, by simpa using hj⟩) ∈ dedupKey l :: seen :=
              List.mem_cons_of_mem _ (by simpa using hmem)
            have := ih (dedupKey l :: seen) (idx + 1) j (by simpa using hj) hmem'
            intro hc
            rcases List.mem_cons.mp hc with h0 | h1
            · omega
            · have hb := this
              have : idx + (j + 1) = (idx + 1) + j := by omega
              rw [this] at h1
              exact hb h1

/-- Two positions with equal dedup keys: the later one never passes. -/
lemma processIndices_dup_skip : ∀ (ls : List RawLog) (seen : List (List Nat × Nat))
    (idx i j : Nat) (hij : i < j) (hj : j < ls.length),
    dedupKey (ls.get ⟨i, lt_trans hij hj⟩) = dedupKey (ls.get ⟨j, hj⟩) →
    idx + j ∉ (processIndices ls seen idx).2 := by
  intro ls
  induction ls with
  | nil => intro seen idx i j hij hj; simp at hj
  | cons l ls ih =>
      intro seen idx i j hij hj hkey
      cases i with
      | zero =>
          obtain ⟨j', rfl⟩ : ∃ j', j = j' + 1 := ⟨j - 1, by omega⟩
          have hj' : j' < ls.length := by simpa using hj
          have hkey' : dedupKey (ls.get ⟨j', hj'⟩) = dedupKey l := by
            simpa using hkey.symm
          unfold processIndices
          by_cases hm : dedupKey l ∈ seen
          · rw [if_pos hm]
            have := processIndices_seen_skip ls seen (idx + 1) j' hj' (hkey' ▸ hm)
            simpa [Nat.add_assoc, Nat.add_comm 1 j'] using this
          · rw [if_neg hm]
            intro hc
            rcases List.mem_cons.mp hc with h0 | h1
            · omega
            · have hmem : dedupKey (ls.get ⟨j', hj'⟩) ∈ dedupKey l :: seen := by
                rw [hkey']; exact List.mem_cons_self _ _
              have := processIndices_seen_skip ls (dedupKey l :: seen) (idx + 1) j' hj' hmem
              have heq : idx + (j' + 1) = (idx + 1) + j' := by omega
              rw [heq] at h1
              exact this h1
      | succ i' =>
          obtain ⟨j', rfl⟩ : ∃ j', j = j' + 1 := ⟨j - 1, by omega⟩
          have hij' : i' < j' := by omega
          have hj' : j' < ls.length := by simpa using hj
          have hkey' : dedupKey (ls.get ⟨i', lt_trans hij' hj'⟩) = dedupKey (ls.get ⟨j', hj'⟩) := by
            simpa using hkey
          unfold processIndices
          by_cases hm : dedupKey l ∈ seen
          · rw [if_pos hm]
            have := ih seen (idx + 1) i' j' hij' hj' hkey'
            simpa [Nat.add_assoc, Nat.add_comm 1 j'] using this
          · rw [if_neg hm]
            intro hc
            rcases List.mem_cons.mp hc with h0 | h1
            · omega
            · have := ih (dedupKey l :: seen) (idx + 1) i' j' hij' hj' hkey'
              have heq : idx + (j' + 1) = (idx + 1) + j' := by omega
              rw [heq] at h1
              exact this h1

end Together
namespace Together

/-- C10: within one orchestrator tick, a log's dedup key substitutes the
all-zero hash and index 0 for absent `transaction_hash`/`log_index`; any two
logs of a batch that both lack the two fields therefore collide, and every
such log after the first is skipped before decoding (hence never persisted),
while a successful range still saves its `to_block` as the new watermark —
advancing the cursor past the skipped log's block. -/
theorem dedupKeyCollision :
    (∀ l : RawLog, l.transaction_hash = none → l.log_index = none →
        dedupKey l = (zeroB256, 0)) ∧
    (∀ (logs : List RawLog) (seen : List (List Nat × Nat)) (i j : Nat)
        (hij : i < j) (hj : j < logs.length),
        (logs.get ⟨i, lt_trans hij hj⟩).transaction_hash = none →
        (logs.get ⟨i, lt_trans hij hj⟩).log_index = none →
        (logs.get ⟨j, hj⟩).transaction_hash = none →
        (logs.get ⟨j, hj⟩).log_index = none →
        j ∉ (processIndices logs seen 0).2) ∧
    (∀ (st : LoopState) (e : IterEnv) (fb tb : Nat),
        e.outcome = Outcome.ok → (loopIter st e).issued = some (fb, tb) →
        (loopIter st e).saved = some ⟨tb, (loopIter st e).st.chunk_size⟩) := by
  refine ⟨?_, ?_, ?_⟩
  · intro l h1 h2
    simp [dedupKey, h1, h2]
  · intro logs seen i j hij hj hi1 hi2 hj1 hj2
    have hkey : dedupKey (logs.get ⟨i, lt_trans hij hj⟩) = dedupKey (logs.get ⟨j, hj⟩) := by
      simp only [List.get_eq_getElem] at hi1 hi2 hj1 hj2
      simp [dedupKey, hi1, hi2, hj1, hj2]
    have := processIndices_dup_skip logs seen 0 i j hij hj hkey
    simpa using this
  · intro st e fb tb hout hiss
    obtain ⟨r, o⟩ := e
    subst hout
    unfold loopIter at hiss ⊢
    by_cases h1 : st.latest_block < st.from_block
    · rw [if_pos h1] at hiss; exact absurd hiss (by simp)
    · rw [if_neg h1] at hiss ⊢
      by_cases h2 : currentLatest st ⟨r, Outcome.ok⟩ < st.from_block
      · rw [if_pos h2] at hiss; exact absurd hiss (by simp)
      · rw [if_neg h2] at hiss ⊢
        simp only [Option.some.injEq, Prod.mk.injEq] at hiss
        simp [← hiss.2]

/-- Witness for C10 at a concrete input: two logs with no transaction hash
and no log index; the second (index 1) never passes the dedup check, and a
successful range save records the range's `to_block`. -/
theorem dedupKeyCollision_witness :
    (1 : Nat) ∉ (processIndices
      [⟨none, none, some 7, false, [], []⟩, ⟨none, none, some 8, false, [], []⟩]
      [] 0).2 :=
  dedupKeyCollision.2.1
    [⟨none, none, some 7, false, [], []⟩, ⟨none, none, some 8, false, [], []⟩]
    [] 0 1 (by decide) (by decide) rfl rfl rfl rfl

end Together
namespace Together

/-! ## Event decoders (attestation_watcher.rs lines 376–494)

Byte-level helpers: big-endian word value, lowercase hex encoding, the 12-byte
slice for indexed addresses, and the `u64 → i64` as-cast. -/

/-- Big-endian unsigned value of a byte string (`U256::from_be_bytes`). -/
def beNat (l : List Nat) : Nat :=
  l.foldl (fun acc b => acc * 256 + b) 0

/-- One lowercase hex digit (`hex::encode` uses lowercase). -/
def hexDigit (n : Nat) : Char :=
  if n < 10 then Char.ofNat (48 + n) else Char.ofNat (87 + n)

/-- Lowercase hex encoding of a byte string (`hex::encode`). -/
def hexEncode (l : List Nat) : String :=
  String.mk (List.flatten (l.map fun b => [hexDigit (b / 16), hexDigit (b % 16)]))

/-- Rust slice indexing `bytes.get(12..)`: `some` of the tail iff the start is
within bounds. -/
def sliceFrom (l : List Nat) (i : Nat) : Option (List Nat) :=
  if i ≤ l.length then some (l.drop i) else none

/-- `format!("0x{}", hex::encode(topic.get(12..).unwrap_or(&[0u8; 20])))`
(lines 443, 481 and the `test_address_decoding` unit test). -/
def extractAddress (t : List Nat) : String :=
  "0x" ++ hexEncode ((sliceFrom t 12).getD (List.replicate 20 0))

/-- `format!("0x{:x}", topic)` on a `B256`: all 32 bytes in lowercase hex. -/
def castHashHex (t : List Nat) : String :=
  "0x" ++ hexEncode t

/-- The `u64 as i64` cast (two's-complement wrap). -/
def u64AsI64 (v : Nat) : Int :=
  if v < 2 ^ 63 then (v : Int) else (v : Int) - 2 ^ 64

structure AuctionStartedEvent where
  cast_hash : String
  creator_fid : Int
deriving DecidableEq, Repr

structure AuctionSettledEvent where
  cast_hash : String
  winner_address : String
deriving DecidableEq, Repr

/-- Result of running a decoder: a decoded event, a logged skip (`None` in the
source), or a Rust panic. -/
inductive DecodeResult (α : Type) where
  | ok (a : α)
  | skip
  | panic
deriving DecidableEq, Repr

/-- `decode_auction_started_log` (lines 376–413).  The source computes
`U256::from_be_bytes(topics[3].0).to::<u64>() as i64`; `Uint::to` PANICS when
the value does not fit the target type, so any `topics[3]` value `≥ 2^64`
(legitimate for the declared `uint96` field) aborts the process — modelled by
`DecodeResult.panic`. -/
def decode_auction_started_log (l : RawLog) : DecodeResult AuctionStartedEvent :=
  if l.removed then .skip
  else if l.topics.length < 4 then .skip
  else if beNat (l.topics.getD 3 []) < 2 ^ 64 then
    .ok ⟨castHashHex (l.topics.getD 1 []), u64AsI64 (beNat (l.topics.getD 3 []))⟩
  else .panic

/-- `decode_auction_settled_log` (lines 415–452). -/
def decode_auction_settled_log (l : RawLog) : Option AuctionSettledEvent :=
  if l.removed then none
  else if l.topics.length < 4 then none
  else some ⟨castHashHex (l.topics.getD 1 []), extractAddress (l.topics.getD 2 [])⟩

/-- The example topic of the spec and of `test_address_decoding`:
`0x00000000000000000000000063396c40c4d51921f983294df2c92ccca3584f30`. -/
def exampleTopic : List Nat :=
  List.replicate 12 0 ++
    [0x63, 0x39, 0x6c, 0x40, 0xc4, 0xd5, 0x19, 0x21, 0xf9, 0x83,
     0x29, 0x4d, 0xf2, 0xc9, 0x2c, 0xcc, 0xa3, 0x58, 0x4f, 0x30]

/-- A 32-byte word with big-endian value `2^64`: byte 23 is 1, the rest 0.
A legitimate `uint96` value that does not fit in `u64`. -/
def overflowTopic : List Nat :=
  List.replicate 23 0 ++ [1] ++ List.replicate 8 0

/-- An otherwise well-formed `AuctionStarted` log whose `creator_fid` word is
`2^64`. -/
def overflowLog : RawLog :=
  ⟨some zeroB256, some 0, some 1, false, [zeroB256, zeroB256, zeroB256, overflowTopic], []⟩

/-- C5: the decoder is NOT total — on an `AuctionStarted` log whose
`topics[3]` holds `2^64` (a valid `uint96` creator fid) the
`U256::to::<u64>()` conversion panics and the process dies, contradicting the
claim that decoding never panics for any 32-byte `topics[3]` and that decode
failures never terminate the watcher. -/
theorem auctionStartedDecodePanics :
    overflowLog.removed = false ∧
    overflowLog.topics.length = 4 ∧
    overflowTopic.length = 32 ∧
    beNat overflowTopic = 2 ^ 64 ∧
    decode_auction_started_log overflowLog = DecodeResult.panic := by
  refine ⟨rfl, rfl, rfl, by decide, ?_⟩
  rfl

/-- C9: for every decoded `AuctionSettled` event the winner address is `"0x"`
followed by the lowercase hex of bytes 12..32 of the 32-byte `topics[2]`
word; in particular the spec's example topic decodes to
`0x63396c40c4d51921f983294df2c92ccca3584f30`. -/
theorem indexedAddressExtraction :
    (∀ (l : RawLog) (ev : AuctionSettledEvent),
        decode_auction_settled_log l = some ev →
        (l.topics.getD 2 []).length = 32 →
        ev.winner_address = "0x" ++ hexEncode ((l.topics.getD 2 []).drop 12)) ∧
    exampleTopic.length = 32 ∧
    extractAddress exampleTopic = "0x63396c40c4d51921f983294df2c92ccca3584f30" := by
  refine ⟨?_, by decide, by decide⟩
  intro l ev hdec hlen
  unfold decode_auction_settled_log at hdec
  by_cases h1 : l.removed
  · rw [if_pos h1] at hdec; exact absurd hdec (by simp)
  · rw [if_neg h1] at hdec
    by_cases h2 : l.topics.length < 4
    · rw [if_pos h2] at hdec; exact absurd hdec (by simp)
    · rw [if_neg h2] at hdec
      simp only [Option.some.injEq] at hdec
      subst hdec
      show extractAddress (l.topics.getD 2 []) = _
      unfold extractAddress sliceFrom
      rw [if_pos (by omega)]
      rfl

/-- Witness for C9 at a concrete input: a settle log carrying the example
topic as `topics[2]` decodes to the expected winner address. -/
theorem indexedAddressExtraction_witness :
    (AuctionSettledEvent.mk (castHashHex zeroB256) (extractAddress exampleTopic)).winner_address
      = "0x" ++ hexEncode (exampleTopic.drop 12) :=
  indexedAddressExtraction.1
    ⟨none, none, none, false, [zeroB256, zeroB256, exampleTopic, zeroB256], []⟩
    ⟨castHashHex zeroB256, extractAddress exampleTopic⟩ rfl (by decide)

end Together
namespace Together

/-! ## Auction sink (`process_auction_settled`, attestation_watcher.rs lines 542–603)

The `auctions` table (unique on `cast_hash`) is a list of rows; `id` stands
for the generated UUID. -/

structure AuctionRow where
  id : Nat
  cast_hash : String
  creator_fid : Option Int
  settled : Bool
  winner_address : Option String
deriving DecidableEq, Repr

/-- The per-row effect of the `UPDATE auctions SET settled = true,
winner_address = $2 WHERE cast_hash = $1` statement. -/
def settleUpdate (ch w : String) (r : AuctionRow) : AuctionRow :=
  if r.cast_hash = ch then { r with settled := true, winner_address := some w } else r

/-- `process_auction_settled`: run the update; if it affected zero rows,
insert an orphan row (`creator_fid = NULL`, `settled = true`) guarded by
`ON CONFLICT (cast_hash) DO NOTHING`.  `newId` is the freshly generated
fallback UUID. -/
def process_auction_settled (db : List AuctionRow) (ev : AuctionSettledEvent)
    (newId : Nat) : List AuctionRow :=
  let updated := db.map (settleUpdate ev.cast_hash ev.winner_address)
  let affected := db.countP (fun r => decide (r.cast_hash = ev.cast_hash))
  if affected = 0 then
    if updated.any (fun r => decide (r.cast_hash = ev.cast_hash)) then
      updated
    else
      updated ++ [⟨newId, ev.cast_hash, none, true, some ev.winner_address⟩]
  else
    updated

lemma settleUpdate_skip (db : List AuctionRow) (ch w : String)
    (h : ∀ r ∈ db, r.cast_hash ≠ ch) :
    db.map (settleUpdate ch w) = db := by
  induction db with
  | nil => rfl
  | cons r rs ih =>
      have hr := h r (List.mem_cons_self r rs)
      have hrs := ih (fun x hx => h x (List.mem_cons_of_mem r hx))
      simp [settleUpdate, hr, hrs]

lemma filter_hash_nil (db : List AuctionRow) (ch : String)
    (h : ∀ r ∈ db, r.cast_hash ≠ ch) :
    db.filter (fun r => decide (r.cast_hash = ch)) = [] := by
  rw [List.filter_eq_nil_iff]
  intro a ha
  simpa using h a ha

/-- When no row matches the natural key, the settle falls back to inserting
the orphan row at the end of the table. -/
lemma process_auction_settled_insert (db : List AuctionRow) (ev : AuctionSettledEvent)
    (newId : Nat) (hfresh : ∀ r ∈ db, r.cast_hash ≠ ev.cast_hash) :
    process_auction_settled db ev newId
      = db ++ [⟨newId, ev.cast_hash, none, true, some ev.winner_address⟩] := by
  have hupd := settleUpdate_skip db ev.cast_hash ev.winner_address hfresh
  have hcnt : db.countP (fun r => decide (r.cast_hash = ev.cast_hash)) = 0 := by
    rw [List.countP_eq_zero]
    intro a ha
    simpa using hfresh a ha
  have hany : db.any (fun r => decide (r.cast_hash = ev.cast_hash)) = false := by
    rw [List.any_eq_false]
    intro a ha
    simpa using hfresh a ha
  simp only [process_auction_settled]
  rw [hupd, hcnt, hany]
  simp

/-- When at least one row matches, the settle is the pure update and no row
is inserted. -/
lemma process_auction_settled_update (db : List AuctionRow) (ev : AuctionSettledEvent)
    (newId : Nat)
    (hmatch : db.countP (fun r => decide (r.cast_hash = ev.cast_hash)) ≠ 0) :
    process_auction_settled db ev newId
      = db.map (settleUpdate ev.cast_hash ev.winner_address) := by
  simp only [process_auction_settled]
  rw [if_neg hmatch]

/-- C7: an `AuctionSettled` event whose `cast_hash` matches no row inserts
exactly one row — settled, carrying the event's winner address, with NULL
`creator_fid`; a later duplicate settle for the same `cast_hash` updates that
row in place (new winner address) and never creates a second row. -/
theorem orphanSettleHandling (db : List AuctionRow) (ev ev2 : AuctionSettledEvent)
    (id1 id2 : Nat)
    (hfresh : ∀ r ∈ db, r.cast_hash ≠ ev.cast_hash)
    (hsame : ev2.cast_hash = ev.cast_hash) :
    (process_auction_settled db ev id1).filter
        (fun r => decide (r.cast_hash = ev.cast_hash))
      = [⟨id1, ev.cast_hash, none, true, some ev.winner_address⟩] ∧
    (process_auction_settled db ev id1).length = db.length + 1 ∧
    (process_auction_settled (process_auction_settled db ev id1) ev2 id2).filter
        (fun r => decide (r.cast_hash = ev.cast_hash))
      = [⟨id1, ev.cast_hash, none, true, some ev2.winner_address⟩] ∧
    (process_auction_settled (process_auction_settled db ev id1) ev2 id2).length
      = db.length + 1 := by
  have hcnt : db.countP (fun r => decide (r.cast_hash = ev.cast_hash)) = 0 := by
    rw [List.countP_eq_zero]
    intro a ha
    simpa using hfresh a ha
  have hdb1 := process_auction_settled_insert db ev id1 hfresh
  have hm2 : (process_auction_settled db ev id1).countP
      (fun r => decide (r.cast_hash = ev2.cast_hash)) ≠ 0 := by
    rw [hdb1, hsame, List.countP_append, hcnt]
    simp
  have hdb2 := process_auction_settled_update (process_auction_settled db ev id1) ev2 id2 hm2
  refine ⟨?_, ?_, ?_, ?_⟩
  · rw [hdb1, List.filter_append, filter_hash_nil db ev.cast_hash hfresh]
    simp
  · rw [hdb1]
    simp
  · rw [hdb2, hdb1, hsame, List.map_append,
        settleUpdate_skip db ev.cast_hash ev2.winner_address hfresh,
        List.filter_append, filter_hash_nil db ev.cast_hash hfresh]
    simp [settleUpdate]
  · rw [hdb2, hdb1]
    simp

/-- Witness for C7 at a concrete input: an orphan settle against an empty
table followed by a duplicate settle with a different winner. -/
theorem orphanSettleHandling_witness :
    (process_auction_settled [] ⟨"0xcast", "0xw1"⟩ 1).filter
        (fun r => decide (r.cast_hash = "0xcast"))
      = [⟨1, "0xcast", none, true, some "0xw1"⟩] ∧
    (process_auction_settled (process_auction_settled [] ⟨"0xcast", "0xw1"⟩ 1)
        ⟨"0xcast", "0xw2"⟩ 2).filter (fun r => decide (r.cast_hash = "0xcast"))
      = [⟨1, "0xcast", none, true, some "0xw2"⟩] := by
  have h := orphanSettleHandling [] ⟨"0xcast", "0xw1"⟩ ⟨"0xcast", "0xw2"⟩ 1 2
    (by simp) rfl
  exact ⟨h.1, h.2.2.1⟩

end Together
namespace Together

/-! ## Lexicographic string comparison (Rust `Ord for str`, via `to_lowercase`)

`insert_attestation` and `check_together` both order the address pair by
`address_1.to_lowercase() <= address_2.to_lowercase()`; Rust compares strings
lexicographically.  Addresses are ASCII hex strings, for which Rust's
`to_lowercase` is the character-wise lowercase map. -/

def leChars : List Char → List Char → Bool
  | [], _ => true
  | _ :: _, [] => false
  | x :: xs, y :: ys => if x < y then true else if x = y then leChars xs ys else false

def lowerStr (s : String) : String :=
  ⟨s.data.map Char.toLower⟩

def strLe (a b : String) : Bool :=
  leChars a.data b.data

lemma leChars_total : ∀ xs ys : List Char, leChars xs ys = false → leChars ys xs = true := by
  intro xs
  induction xs with
  | nil => intro ys h; simp [leChars] at h
  | cons x xs ih =>
      intro ys h
      cases ys with
      | nil => rfl
      | cons y ys =>
          unfold leChars at h ⊢
          by_cases hxy : x < y
          · rw [if_pos hxy] at h
            exact absurd h (by simp)
          · rw [if_neg hxy] at h
            by_cases heq : x = y
            · rw [if_pos heq] at h
              rw [if_neg (heq ▸ hxy), if_pos heq.symm]
              exact ih ys h
            · have hyx : y < x := lt_of_le_of_ne (le_of_not_lt hxy) (Ne.symm heq)
              rw [if_pos hyx]

lemma leChars_antisymm : ∀ xs ys : List Char,
    leChars xs ys = true → leChars ys xs = true → xs = ys := by
  intro xs
  induction xs with
  | nil =>
      intro ys _ h2
      cases ys with
      | nil => rfl
      | cons y ys => simp [leChars] at h2
  | cons x xs ih =>
      intro ys h1 h2
      cases ys with
      | nil => simp [leChars] at h1
      | cons y ys =>
          unfold leChars at h1 h2
          by_cases hxy : x < y
          · rw [if_neg (by intro hyx; exact absurd (lt_trans hyx hxy) (lt_irrefl y)),
                if_neg (by intro heq2; rw [heq2] at hxy; exact absurd hxy (lt_irrefl x))] at h2
            exact absurd h2 (by simp)
          · rw [if_neg hxy] at h1
            by_cases heq : x = y
            · rw [if_pos heq] at h1
              rw [if_neg (heq ▸ hxy), if_pos heq.symm] at h2
              rw [heq, ih ys h1 h2]
            · exact absurd h1 (by simp [heq])

lemma leChars_refl : ∀ xs : List Char, leChars xs xs = true := by
  intro xs
  induction xs with
  | nil => rfl
  | cons x xs ih => simp [leChars, ih]

lemma stringDataEq {a b : String} (h : a.data = b.data) : a = b := by
  cases a
  cases b
  exact congrArg String.mk (by simpa using h)

lemma strLe_refl (a : String) : strLe a a = true :=
  leChars_refl a.data

lemma strLe_total (a b : String) (h : strLe a b = false) : strLe b a = true :=
  leChars_total a.data b.data h

lemma strLe_antisymm (a b : String) (h1 : strLe a b = true) (h2 : strLe b a = true) :
    a = b :=
  stringDataEq (leChars_antisymm a.data b.data h1 h2)

/-! ## Attestation sink and point query (src/backend/src/db/attestations.rs)

`together_attestations` has a uniqueness constraint on
`(address_1, address_2, attestation_timestamp)` (the `ON CONFLICT` target);
`together_counts` is keyed by `address`.  The generated `id`/`created_at`
columns play no role in the verified properties and are omitted. -/

structure AttestationRow where
  address_1 : String
  address_2 : String
  attestation_timestamp : Int
  tx_hash : Option String
  block_number : Option Int
deriving DecidableEq, Repr

structure AttStore where
  attestations : List AttestationRow
  counts : List (String × Int)
deriving DecidableEq, Repr

/-- The ordering both `insert_attestation` (lines 14–19) and `check_together`
(lines 167–172) apply:
`if address_1.to_lowercase() <= address_2.to_lowercase() { (a1, a2) } else { (a2, a1) }`. -/
def canonicalPair (a1 a2 : String) : String × String :=
  if strLe (lowerStr a1) (lowerStr a2) then (a1, a2) else (a2, a1)

/-- `SELECT COUNT(*) FROM together_attestations WHERE LOWER(address_1) =
LOWER($1) OR LOWER(address_2) = LOWER($1)`. -/
def countQuery (st : AttStore) (addr : String) : Int :=
  Int.ofNat (st.attestations.countP
    (fun r => decide (lowerStr r.address_1 = lowerStr addr) ||
              decide (lowerStr r.address_2 = lowerStr addr)))

/-- `update_address_count` (lines 45–66): upsert into `together_counts`
keyed by the raw address, setting `total_count` to the count query. -/
def countUpsert (st : AttStore) (addr : String) (c : String × Int) : String × Int :=
  if c.1 = addr then (c.1, countQuery st addr) else c

def update_address_count (st : AttStore) (addr : String) : AttStore :=
  if st.counts.any (fun c => decide (c.1 = addr)) then
    { st with counts := st.counts.map (countUpsert st addr) }
  else
    { st with counts := st.counts ++ [(addr, countQuery st addr)] }

inductive DbError where
  | rowNotFound
deriving DecidableEq, Repr

/-- `insert_attestation` (lines 6–42).  The SQL is `INSERT … ON CONFLICT
(address_1, address_2, attestation_timestamp) DO NOTHING RETURNING *`,
executed with `fetch_one`: on a conflict `DO NOTHING` returns ZERO rows and
`fetch_one` fails with `RowNotFound`, so the function errors out before
either `update_address_count` call runs. -/
def insert_attestation (st : AttStore) (a1 a2 : String) (t : Int)
    (tx : Option String) (bn : Option Int) :
    Except DbError (AttStore × AttestationRow) :=
  let p := canonicalPair a1 a2
  if st.attestations.any
      (fun r => decide (r.address_1 = p.1) && decide (r.address_2 = p.2) &&
                decide (r.attestation_timestamp = t)) then
    Except.error DbError.rowNotFound
  else
    let row : AttestationRow := ⟨p.1, p.2, t, tx, bn⟩
    let st1 : AttStore := { st with attestations := st.attestations ++ [row] }
    Except.ok (update_address_count (update_address_count st1 p.1) p.2, row)

/-- `ORDER BY attestation_timestamp DESC LIMIT 1` with `fetch_optional`:
the first row of maximal timestamp (the database's tie order is
unspecified; the verified claims only use it on a single match). -/
def latestBy : List AttestationRow → Option AttestationRow
  | [] => none
  | r :: rs => some (rs.foldl
      (fun best x => if best.attestation_timestamp < x.attestation_timestamp then x else best) r)

/-- `check_together` (lines 166–188). -/
def check_together (st : AttStore) (a1 a2 : String) : Option AttestationRow :=
  let p := canonicalPair a1 a2
  latestBy (st.attestations.filter
    (fun r => decide (lowerStr r.address_1 = lowerStr p.1) &&
              decide (lowerStr r.address_2 = lowerStr p.2)))

lemma update_address_count_attestations (st : AttStore) (addr : String) :
    (update_address_count st addr).attestations = st.attestations := by
  unfold update_address_count
  split <;> rfl

lemma canonicalPair_sorted (a b : String) :
    strLe (lowerStr (canonicalPair a b).1) (lowerStr (canonicalPair a b).2) = true := by
  unfold canonicalPair
  by_cases h : strLe (lowerStr a) (lowerStr b) = true
  · simp [h]
  · have h2 := strLe_total (lowerStr a) (lowerStr b) (eq_false_of_ne_true h)
    simp [h, h2]

lemma canonicalPair_lower_swap (A B : String) :
    lowerStr (canonicalPair B A).1 = lowerStr (canonicalPair A B).1 ∧
    lowerStr (canonicalPair B A).2 = lowerStr (canonicalPair A B).2 := by
  unfold canonicalPair
  by_cases hab : strLe (lowerStr A) (lowerStr B) = true
  · by_cases hba : strLe (lowerStr B) (lowerStr A) = true
    · have heq : lowerStr B = lowerStr A := strLe_antisymm _ _ hba hab
      simp [hab, hba, heq, strLe_refl]
    · simp [hab, hba]
  · have hba : strLe (lowerStr B) (lowerStr A) = true :=
      strLe_total _ _ (eq_false_of_ne_true hab)
    simp [hab, hba]

end Together
namespace Together

/-- C8: inserting an attestation with arguments `(B, A, t)` and then calling
`check_together A B` returns the stored row: both operations canonicalize the
pair with the same lowercase lexicographic comparison, the stored row has
`lower address_1 ≤ lower address_2`, and the query finds it regardless of
argument order.  (`hfresh`: the store holds no row for this address pair
yet.) -/
theorem attestationRoundTrip (st : AttStore) (A B : String) (t : Int)
    (tx : Option String) (bn : Option Int)
    (hfresh : ∀ r ∈ st.attestations,
        ¬(lowerStr r.address_1 = lowerStr (canonicalPair A B).1 ∧
          lowerStr r.address_2 = lowerStr (canonicalPair A B).2)) :
    ∃ res : AttStore × AttestationRow,
      insert_attestation st B A t tx bn = Except.ok res ∧
      strLe (lowerStr res.2.address_1) (lowerStr res.2.address_2) = true ∧
      res.2.attestation_timestamp = t ∧
      check_together res.1 A B = some res.2 := by
  obtain ⟨h1, h2⟩ := canonicalPair_lower_swap A B
  have hany : st.attestations.any
      (fun r => decide (r.address_1 = (canonicalPair B A).1) &&
                decide (r.address_2 = (canonicalPair B A).2) &&
                decide (r.attestation_timestamp = t)) = false := by
    rw [List.any_eq_false]
    intro r hr hcontra
    simp only [Bool.and_eq_true, decide_eq_true_eq] at hcontra
    exact hfresh r hr ⟨by rw [hcontra.1.1]; exact h1, by rw [hcontra.1.2]; exact h2⟩
  refine ⟨⟨update_address_count
      (update_address_count
        { st with attestations := st.attestations ++
            [⟨(canonicalPair B A).1, (canonicalPair B A).2, t, tx, bn⟩] }
        (canonicalPair B A).1)
      (canonicalPair B A).2,
      ⟨(canonicalPair B A).1, (canonicalPair B A).2, t, tx, bn⟩⟩, ?_, ?_, rfl, ?_⟩
  · simp only [insert_attestation, hany]
    rfl
  · exact canonicalPair_sorted B A
  · show check_together _ A B = _
    unfold check_together
    rw [update_address_count_attestations, update_address_count_attestations]
    dsimp only
    have hrow : (fun r : AttestationRow =>
        decide (lowerStr r.address_1 = lowerStr (canonicalPair A B).1) &&
        decide (lowerStr r.address_2 = lowerStr (canonicalPair A B).2))
        ⟨(canonicalPair B A).1, (canonicalPair B A).2, t, tx, bn⟩ = true := by
      simp [h1, h2]
    have hnil : st.attestations.filter
        (fun r : AttestationRow =>
          decide (lowerStr r.address_1 = lowerStr (canonicalPair A B).1) &&
          decide (lowerStr r.address_2 = lowerStr (canonicalPair A B).2)) = [] := by
      rw [List.filter_eq_nil_iff]
      intro r hr hcontra
      simp only [Bool.and_eq_true, decide_eq_true_eq] at hcontra
      exact hfresh r hr ⟨hcontra.1, hcontra.2⟩
    rw [List.filter_append, hnil]
    simp [List.filter_cons, hrow, latestBy]

/-- Witness for C8 at a concrete input: insert `("0xB", "0xa", 5)` into the
empty store and query `("0xa", "0xB")`. -/
theorem attestationRoundTrip_witness :
    ∃ res : AttStore × AttestationRow,
      insert_attestation ⟨[], []⟩ "0xB" "0xa" 5 none none = Except.ok res ∧
      strLe (lowerStr res.2.address_1) (lowerStr res.2.address_2) = true ∧
      res.2.attestation_timestamp = 5 ∧
      check_together res.1 "0xa" "0xB" = some res.2 :=
  attestationRoundTrip ⟨[], []⟩ "0xa" "0xB" 5 none none (by simp)

/-- A store whose `together_attestations` already holds the canonical row
`("0xaa", "0xbb", 5)` while `together_counts` is stale (empty) — exactly the
situation the spec's "counters self-heal" sentence is about. -/
def staleStore : AttStore :=
  ⟨[⟨"0xaa", "0xbb", 5, none, none⟩], []⟩

/-- C1: replaying the same attestation against `staleStore` does NOT complete
without error and does NOT re-run the counter update: `ON CONFLICT DO NOTHING
RETURNING *` returns zero rows, `fetch_one` fails with `RowNotFound`, and
`insert_attestation` propagates the error before either
`update_address_count` call — the stale counters stay stale. -/
theorem insertAttestationDuplicateErrors :
    insert_attestation staleStore "0xaa" "0xbb" 5 none none
      = Except.error DbError.rowNotFound ∧
    staleStore.counts = [] ∧
    countQuery staleStore "0xaa" = 1 ∧
    countQuery staleStore "0xbb" = 1 := by
  refine ⟨rfl, rfl, rfl, rfl⟩

end Together
namespace Together

/-! ## Cursor store (`update_watcher_state`, src/backend/src/db/attestations.rs lines 230–253)

The SQL is an upsert whose update arm is `chunk_size = COALESCE($3,
watcher_state.chunk_size)` — but the Rust code binds
`$3 = chunk_size.unwrap_or(500)`, so `$3` is never NULL and the COALESCE
always takes `$3`. -/

structure WatcherRow where
  id : String
  last_processed_block : Int
  chunk_size : Int
deriving DecidableEq, Repr

def update_watcher_state (db : List WatcherRow) (watcher_id : String)
    (last : Int) (chunk : Option Int) : List WatcherRow :=
  let bound : Int := chunk.getD 500
  if db.any (fun r => decide (r.id = watcher_id)) then
    db.map (fun r => if r.id = watcher_id then ⟨r.id, last, bound⟩ else r)
  else
    db ++ [⟨watcher_id, last, bound⟩]

/-- C3: calling `update_watcher_state` with `chunk_size = None` is NOT a
no-op on the stored chunk size: because the binding is
`chunk_size.unwrap_or(500)`, a cursor whose chunk size is 1000 comes out
with chunk size 500 (the watermark update itself works as claimed). -/
theorem updateWatcherStateNoneResets :
    update_watcher_state [⟨"together_watcher", 10, 1000⟩] "together_watcher" 20 none
      = [⟨"together_watcher", 20, 500⟩] ∧
    (1000 : Int) ≠ 500 := by
  exact ⟨rfl, by decide⟩

end Together
